import Mathlib

/-!
# Verification of the frodo-cli secure storage engine

A shallow embedding of the encrypted key/value storage core of the
repository (`crates/frodo-storage`, `crates/frodo-task`,
`crates/frodo-core`), together with proofs and refutations of the
specified properties.

Conventions of the embedding:
* machine bytes (`u8`) are `Fin 256`; byte buffers (`Vec<u8>`, `&[u8]`)
  are `List (Fin 256)`;
* file contents (ASCII JSON produced by `serde_json`) are `List Char`;
* fallible Rust functions returning `Result` become `Except`;
* a Rust `panic!` (an abort, not a `Result`) is modelled as a separate
  `crash` outcome where the source can reach one;
* external randomness (`OsRng`) is passed in as an explicit argument:
  the caller supplies the bytes the CSPRNG produced;
* the wall clock (`chrono::Utc::now()`) is passed in as an explicit
  `Nat` timestamp argument.
-/

/-! ## Bytes -/

/-- Truncate a natural number to a byte. -/
def fin256 (n : Nat) : Fin 256 := ⟨n % 256, Nat.mod_lt n (by decide)⟩

/-- Truncate a natural number to a base64 sextet. -/
def fin64 (n : Nat) : Fin 64 := ⟨n % 64, Nat.mod_lt n (by decide)⟩

/-- Bytewise `xor` (Rust `^` on `u8`). -/
def bxor (a b : Fin 256) : Fin 256 :=
  ⟨a.val ^^^ b.val, Nat.xor_lt_two_pow (n := 8) a.isLt b.isLt⟩

theorem bxor_bxor_cancel (a b : Fin 256) : bxor (bxor a b) b = a := by
  apply Fin.ext
  simp [bxor, Nat.xor_assoc]

theorem bxor_right_cancel {a b c : Fin 256} (h : bxor a c = bxor b c) : a = b := by
  have := congrArg (fun x => bxor x c) h
  simpa [bxor_bxor_cancel] using this

/-- Unmasking a bytewise-xor mask restores the data (`zipWith` form). -/
theorem zipWith_bxor_cancel :
    ∀ (v s : List (Fin 256)), v.length ≤ s.length →
      List.zipWith bxor (List.zipWith bxor v s) s = v
  | [], _, _ => rfl
  | _ :: _, [], h => by simp at h
  | a :: v, b :: s, h => by
    simp only [List.zipWith_cons_cons, bxor_bxor_cancel, List.cons.injEq, true_and]
    exact zipWith_bxor_cancel v s (by simpa using h)

theorem zipWith_bxor_left_inj :
    ∀ (a b p : List (Fin 256)), a.length = b.length → a.length ≤ p.length →
      List.zipWith bxor a p = List.zipWith bxor b p → a = b
  | [], [], _, _, _, _ => rfl
  | [], _ :: _, _, hl, _, _ => by simp at hl
  | _ :: _, [], _, hl, _, _ => by simp at hl
  | _ :: _, _ :: _, [], _, hp, _ => by simp at hp
  | a :: as, b :: bs, p :: ps, hl, hp, h => by
    simp only [List.zipWith_cons_cons, List.cons.injEq] at h
    have h1 : a = b := bxor_right_cancel h.1
    have h2 := zipWith_bxor_left_inj as bs ps (by simpa using hl) (by simpa using hp) h.2
    exact h1 ▸ h2 ▸ rfl

/-! ## Base64 (model of the `base64` crate engines used by the source:
`URL_SAFE_NO_PAD` for file names and blob fields, `STANDARD` for the
keyring secret) -/

/-- URL-safe alphabet (`A-Z a-z 0-9 - _`), as used by `URL_SAFE_NO_PAD`. -/
def urlTbl (s : Fin 64) : Char :=
  if s.val < 26 then Char.ofNat (65 + s.val)
  else if s.val < 52 then Char.ofNat (97 + (s.val - 26))
  else if s.val < 62 then Char.ofNat (48 + (s.val - 52))
  else if s.val = 62 then '-' else '_'

/-- Inverse lookup for the URL-safe alphabet. -/
def urlVal (c : Char) : Option (Fin 64) :=
  let n := c.toNat
  if 65 ≤ n ∧ n ≤ 90 then some (fin64 (n - 65))
  else if 97 ≤ n ∧ n ≤ 122 then some (fin64 (n - 97 + 26))
  else if 48 ≤ n ∧ n ≤ 57 then some (fin64 (n - 48 + 52))
  else if c = '-' then some (fin64 62)
  else if c = '_' then some (fin64 63)
  else none

/-- Standard alphabet (`A-Z a-z 0-9 + /`), as used by `STANDARD`. -/
def stdTbl (s : Fin 64) : Char :=
  if s.val < 26 then Char.ofNat (65 + s.val)
  else if s.val < 52 then Char.ofNat (97 + (s.val - 26))
  else if s.val < 62 then Char.ofNat (48 + (s.val - 52))
  else if s.val = 62 then '+' else '/'

/-- Inverse lookup for the standard alphabet. -/
def stdVal (c : Char) : Option (Fin 64) :=
  let n := c.toNat
  if 65 ≤ n ∧ n ≤ 90 then some (fin64 (n - 65))
  else if 97 ≤ n ∧ n ≤ 122 then some (fin64 (n - 97 + 26))
  else if 48 ≤ n ∧ n ≤ 57 then some (fin64 (n - 48 + 52))
  else if c = '+' then some (fin64 62)
  else if c = '/' then some (fin64 63)
  else none

theorem urlVal_urlTbl : ∀ s : Fin 64, urlVal (urlTbl s) = some s := by decide

theorem stdVal_stdTbl : ∀ s : Fin 64, stdVal (stdTbl s) = some s := by decide

/-- Unpadded base64 encoding over an alphabet (`base64` crate, `NO_PAD`). -/
def encB64 (tbl : Fin 64 → Char) : List (Fin 256) → List Char
  | [] => []
  | [b] => [tbl (fin64 (b.val / 4)), tbl (fin64 (b.val % 4 * 16))]
  | [b1, b2] =>
    [tbl (fin64 (b1.val / 4)), tbl (fin64 (b1.val % 4 * 16 + b2.val / 16)),
     tbl (fin64 (b2.val % 16 * 4))]
  | b1 :: b2 :: b3 :: rest =>
    tbl (fin64 (b1.val / 4)) :: tbl (fin64 (b1.val % 4 * 16 + b2.val / 16)) ::
    tbl (fin64 (b2.val % 16 * 4 + b3.val / 64)) :: tbl (fin64 b3.val) ::
    encB64 tbl rest

/-- Unpadded base64 decoding over an alphabet: rejects symbols outside the
alphabet, a trailing group of one symbol, and non-zero trailing bits
(the crate's canonical mode, `decode_allow_trailing_bits = false`). -/
def decB64 (val : Char → Option (Fin 64)) : List Char → Except String (List (Fin 256))
  | [] => .ok []
  | [c1, c2] =>
    match val c1, val c2 with
    | some s1, some s2 =>
      if s2.val % 16 = 0 then .ok [fin256 (s1.val * 4 + s2.val / 16)]
      else .error "invalid trailing bits"
    | _, _ => .error "invalid symbol"
  | [c1, c2, c3] =>
    match val c1, val c2, val c3 with
    | some s1, some s2, some s3 =>
      if s3.val % 4 = 0 then
        .ok [fin256 (s1.val * 4 + s2.val / 16), fin256 (s2.val % 16 * 16 + s3.val / 4)]
      else .error "invalid trailing bits"
    | _, _, _ => .error "invalid symbol"
  | [_] => .error "invalid length"
  | c1 :: c2 :: c3 :: c4 :: rest =>
    match val c1, val c2, val c3, val c4 with
    | some s1, some s2, some s3, some s4 =>
      match decB64 val rest with
      | .error e => .error e
      | .ok bs =>
        .ok (fin256 (s1.val * 4 + s2.val / 16) :: fin256 (s2.val % 16 * 16 + s3.val / 4) ::
             fin256 (s3.val % 4 * 64 + s4.val) :: bs)
    | _, _, _, _ => .error "invalid symbol"

/-- Decoding inverts encoding (for matching alphabet tables). -/
theorem decB64_encB64 (tbl : Fin 64 → Char) (val : Char → Option (Fin 64))
    (hinv : ∀ s, val (tbl s) = some s) :
    ∀ bs, decB64 val (encB64 tbl bs) = Except.ok bs
  | [] => rfl
  | [b] => by
    have hb := b.isLt
    simp only [encB64, decB64, hinv, fin64, fin256]
    rw [if_pos (by omega)]
    simp only [Except.ok.injEq, List.cons.injEq, and_true, Fin.ext_iff]
    omega
  | [b1, b2] => by
    have h1 := b1.isLt
    have h2 := b2.isLt
    simp only [encB64, decB64, hinv, fin64, fin256]
    rw [if_pos (by omega)]
    simp only [Except.ok.injEq, List.cons.injEq, and_true, Fin.ext_iff]
    omega
  | b1 :: b2 :: b3 :: rest => by
    have h1 := b1.isLt
    have h2 := b2.isLt
    have h3 := b3.isLt
    have ih := decB64_encB64 tbl val hinv rest
    simp only [encB64, decB64, hinv, ih, fin64, fin256]
    simp only [Except.ok.injEq, List.cons.injEq, Fin.ext_iff]
    refine ⟨by omega, by omega, by omega, trivial⟩

/-- Every character an encoder emits comes from its alphabet table. -/
theorem mem_encB64 (tbl : Fin 64 → Char) :
    ∀ bs c, c ∈ encB64 tbl bs → ∃ s, c = tbl s
  | [], _, h => by simp [encB64] at h
  | [b], c, h => by
    simp only [encB64, List.mem_cons, List.not_mem_nil, or_false] at h
    rcases h with h | h <;> exact ⟨_, h⟩
  | [b1, b2], c, h => by
    simp only [encB64, List.mem_cons, List.not_mem_nil, or_false] at h
    rcases h with h | h | h <;> exact ⟨_, h⟩
  | b1 :: b2 :: b3 :: rest, c, h => by
    simp only [encB64, List.mem_cons] at h
    rcases h with h | h | h | h | h
    · exact ⟨_, h⟩
    · exact ⟨_, h⟩
    · exact ⟨_, h⟩
    · exact ⟨_, h⟩
    · exact mem_encB64 tbl rest c h

/-- Injectivity of the encoder, via the decoder. -/
theorem encB64_inj (tbl : Fin 64 → Char) (val : Char → Option (Fin 64))
    (hinv : ∀ s, val (tbl s) = some s) {a b : List (Fin 256)}
    (h : encB64 tbl a = encB64 tbl b) : a = b := by
  have ha := decB64_encB64 tbl val hinv a
  have hb := decB64_encB64 tbl val hinv b
  rw [h, hb] at ha
  exact (Except.ok.injEq _ _).mp ha.symm

/-- Padded standard base64 encoding (the crate's `STANDARD` engine). -/
def encStdPad (bs : List (Fin 256)) : List Char :=
  encB64 stdTbl bs ++
    (match bs.length % 3 with
     | 1 => ['=', '=']
     | 2 => ['=']
     | _ => [])

/-- Padded standard base64 decoding: total length must be a multiple of
four, at most two `=` may close the input, and the stripped body must
decode canonically. -/
def decStdPad (cs : List Char) : Except String (List (Fin 256)) :=
  if cs.length % 4 ≠ 0 then .error "invalid length"
  else
    let eqs := (cs.reverse.takeWhile (fun c => c = '=')).length
    if eqs ≤ 2 then decB64 stdVal ((cs.reverse.dropWhile (fun c => c = '=')).reverse)
    else .error "invalid padding"

/-! ## Shared error taxonomy (`frodo-core/src/storage/secure_store.rs`,
`frodo-storage/src/key_provider.rs`) -/

/-- `SecureStoreError`: `NotFound { key }` | `Storage { reason }`. -/
inductive SecureStoreError where
  | NotFound (key : String)
  | Storage (reason : String)
deriving DecidableEq, Repr

/-- The `thiserror` display form of a `SecureStoreError`. -/
def secureStoreErrorToString : SecureStoreError → String
  | .NotFound k => "entry not found for key: " ++ k
  | .Storage r => "storage failure: " ++ r

/-- `KeyError`: `Keyring` | `Decode` | `Generation` (the spec's
`BackendUnavailable` / `Corrupt` / `GenerationFailed`). -/
inductive KeyError where
  | Keyring (msg : String)
  | Decode (msg : String)
  | Generation (msg : String)
deriving DecidableEq, Repr

/-- The `thiserror` display form of a `KeyError`. -/
def keyErrorToString : KeyError → String
  | .Keyring m => "keyring error: " ++ m
  | .Decode m => "decode error: " ++ m
  | .Generation m => "generation error: " ++ m

/-! ## Key provider (`frodo-storage/src/key_provider.rs`) -/

/-- `KeyMaterial { id, bytes }`; `bytes` models the `[u8; 32]` array, its
length is carried as a hypothesis where it matters. -/
structure KeyMaterial where
  id : String
  bytes : List (Fin 256)
deriving DecidableEq, Repr

/-- `generate_key()`: fills 32 bytes from `OsRng`; the drawn bytes are the
explicit `fresh` argument. -/
def generate_key (fresh : List (Fin 256)) : KeyMaterial :=
  { id := "default", bytes := fresh }

/-- `encode_key`: standard base64 of the key bytes. -/
def encode_key (material : KeyMaterial) : String :=
  String.mk (encStdPad material.bytes)

/-- `decode_key`: standard base64 decode, then the length-32 check. -/
def decode_key (secret : String) : Except KeyError KeyMaterial :=
  match decStdPad secret.data with
  | .error e => .error (.Decode e)
  | .ok bytes =>
    if bytes.length = 32 then .ok { id := "default", bytes := bytes }
    else .error (.Decode ("expected 32 bytes, got " ++ toString bytes.length))

/-- Environment responses of one `KeyringProvider::get_or_create` call:
the results the `keyring` crate returns for `Entry::new`,
`Entry::get_password` and `Entry::set_password`. -/
structure KeyringEnv where
  entryNew : Except String Unit
  getPassword : Except String String
  setPassword : Except String Unit

/-- `KeyringProvider::get_or_create`, shallowly embedded against the
backend responses.  Returns the call's result together with the secret
string handed to `set_password`, when that call was made (`none` when no
write was attempted). -/
def keyring_get_or_create (env : KeyringEnv) (fresh : List (Fin 256)) :
    Except KeyError KeyMaterial × Option String :=
  match env.entryNew with
  | .error e => (.error (.Keyring e), none)
  | .ok _ =>
    match env.getPassword with
    | .ok secret => (decode_key secret, none)
    | .error _ =>
      let material := generate_key fresh
      match env.setPassword with
      | .error e => (.error (.Keyring e), some (encode_key material))
      | .ok _ => (.ok material, some (encode_key material))

/-- The keyring backend in-process: the single stored secret (used for the
interleaving analysis of two concurrent first-time calls). -/
def keyringRead (backend : Option String) : Except String String :=
  match backend with
  | some s => .ok s
  | none => .error "NoEntry"

/-- The tail of `KeyringProvider::get_or_create` after its `get_password`
call: decode on a hit, otherwise generate, write, and return the fresh
material.  Outputs (result, backend after any write, whether this call
generated and wrote a key). -/
def keyring_call_finish (r : Except String String) (fresh : List (Fin 256))
    (backend : Option String) : Except KeyError KeyMaterial × Option String × Bool :=
  match r with
  | .ok secret => (decode_key secret, backend, false)
  | .error _ =>
    (.ok (generate_key fresh), some (encode_key (generate_key fresh)), true)

/-- Two first-time `get_or_create` calls interleaved as
read₁, read₂, write₁, write₂ on an initially empty backend.  Outputs
(result₁, result₂, final backend, wrote₁, wrote₂). -/
def keyring_first_use_race (fresh1 fresh2 : List (Fin 256)) :
    Except KeyError KeyMaterial × Except KeyError KeyMaterial × Option String × Bool × Bool :=
  let b0 : Option String := none
  let r1 := keyringRead b0
  let r2 := keyringRead b0
  let o1 := keyring_call_finish r1 fresh1 b0
  let o2 := keyring_call_finish r2 fresh2 o1.2.1
  (o1.1, o2.1, o2.2.1, o1.2.2, o2.2.2)

/-! ## AEAD cipher (model of the `aes_gcm` crate's `Aes256Gcm`)

The cipher itself is an external dependency; it is modelled as an
idealized authenticated cipher with the interface contract the store
relies on: encryption is deterministic in (key, nonce, plaintext),
decryption inverts it, the ciphertext is plaintext-length-dependent data
plus an authentication tag binding the key and nonce, and decryption of
anything that is not the genuine ciphertext for (key, nonce) fails. -/

/-- Deterministic keystream byte for (key, nonce, lane, position). -/
def streamByte (k n : List (Fin 256)) (salt i : Nat) : Fin 256 :=
  bxor (bxor (k.getD ((i + salt * 11) % 32) (fin256 0)) (n.getD (i % 12) (fin256 0)))
    (fin256 (i * 13 + salt * 7 + 1))

/-- Keystream of a given length. -/
def keystream (k n : List (Fin 256)) (salt len : Nat) : List (Fin 256) :=
  (List.range len).map fun i => streamByte k n salt i

/-- The 12-byte tag component binding the nonce to the key. -/
def nonceTag (k n : List (Fin 256)) : List (Fin 256) :=
  List.zipWith bxor n (k.take 12)

/-- `Aes256Gcm::encrypt` (model): two independent maskings of the
plaintext plus the key/nonce-binding tag. -/
def aeadEncrypt (k n v : List (Fin 256)) : List (Fin 256) :=
  List.zipWith bxor v (keystream k n 0 v.length) ++
  List.zipWith bxor v (keystream k n 1 v.length) ++ nonceTag k n

/-- `Aes256Gcm::decrypt` (model): split, authenticate, unmask; any
inconsistency fails (`aead::Error`). -/
def aeadDecrypt (k n ct : List (Fin 256)) : Option (List (Fin 256)) :=
  if 12 ≤ ct.length ∧ (ct.length - 12) % 2 = 0 then
    let L := (ct.length - 12) / 2
    let c1 := ct.take L
    let c2 := (ct.drop L).take L
    let t := ct.drop (2 * L)
    if t = nonceTag k n ∧
        List.zipWith bxor c1 (keystream k n 0 L) = List.zipWith bxor c2 (keystream k n 1 L) then
      some (List.zipWith bxor c1 (keystream k n 0 L))
    else none
  else none

theorem keystream_length (k n : List (Fin 256)) (salt len : Nat) :
    (keystream k n salt len).length = len := by
  simp [keystream]

theorem nonceTag_length (k n : List (Fin 256)) (hn : n.length = 12)
    (hk : k.length = 32) : (nonceTag k n).length = 12 := by
  simp [nonceTag, hn, hk]

theorem aeadEncrypt_length (k n v : List (Fin 256)) (hn : n.length = 12)
    (hk : k.length = 32) : (aeadEncrypt k n v).length = 2 * v.length + 12 := by
  simp [aeadEncrypt, keystream_length, nonceTag_length k n hn hk]
  omega

theorem aeadEncrypt_take (k n v : List (Fin 256)) :
    (aeadEncrypt k n v).take v.length = List.zipWith bxor v (keystream k n 0 v.length) := by
  have hm1 : (List.zipWith bxor v (keystream k n 0 v.length)).length = v.length := by
    simp [keystream_length]
  rw [aeadEncrypt, List.append_assoc, List.take_left' hm1]

theorem aeadEncrypt_middle (k n v : List (Fin 256)) :
    ((aeadEncrypt k n v).drop v.length).take v.length =
      List.zipWith bxor v (keystream k n 1 v.length) := by
  have hm1 : (List.zipWith bxor v (keystream k n 0 v.length)).length = v.length := by
    simp [keystream_length]
  have hm2 : (List.zipWith bxor v (keystream k n 1 v.length)).length = v.length := by
    simp [keystream_length]
  rw [aeadEncrypt, List.append_assoc, List.drop_left' hm1, List.take_left' hm2]

theorem aeadEncrypt_drop_tag (k n v : List (Fin 256)) :
    (aeadEncrypt k n v).drop (2 * v.length) = nonceTag k n := by
  have hm1 : (List.zipWith bxor v (keystream k n 0 v.length)).length = v.length := by
    simp [keystream_length]
  have hm2 : (List.zipWith bxor v (keystream k n 1 v.length)).length = v.length := by
    simp [keystream_length]
  have h2v : 2 * v.length = v.length + v.length := by omega
  rw [aeadEncrypt, List.append_assoc, h2v, ← List.drop_drop,
    List.drop_left' hm1, List.drop_left' hm2]

/-- The AEAD model round-trips. -/
theorem aeadDecrypt_aeadEncrypt (k n v : List (Fin 256)) (hn : n.length = 12)
    (hk : k.length = 32) : aeadDecrypt k n (aeadEncrypt k n v) = some v := by
  have hlen := aeadEncrypt_length k n v hn hk
  have hcancel0 : List.zipWith bxor (List.zipWith bxor v (keystream k n 0 v.length))
      (keystream k n 0 v.length) = v :=
    zipWith_bxor_cancel v _ (by simp [keystream_length])
  have hcancel1 : List.zipWith bxor (List.zipWith bxor v (keystream k n 1 v.length))
      (keystream k n 1 v.length) = v :=
    zipWith_bxor_cancel v _ (by simp [keystream_length])
  rw [aeadDecrypt, if_pos (by omega)]
  simp only [hlen]
  have harith : (2 * v.length + 12 - 12) / 2 = v.length := by omega
  simp only [harith, aeadEncrypt_take, aeadEncrypt_middle, aeadEncrypt_drop_tag,
    hcancel0, hcancel1]
  simp

/-- Distinct nonces give distinct ciphertexts (the tag binds the nonce). -/
theorem aeadEncrypt_nonce_inj (k n1 n2 v : List (Fin 256)) (h1 : n1.length = 12)
    (h2 : n2.length = 12) (hk : k.length = 32) (hne : n1 ≠ n2) :
    aeadEncrypt k n1 v ≠ aeadEncrypt k n2 v := by
  intro heq
  have htag : nonceTag k n1 = nonceTag k n2 := by
    have := congrArg (fun l => List.drop (2 * v.length) l) heq
    simpa only [aeadEncrypt_drop_tag] using this
  have : n1 = n2 := by
    apply zipWith_bxor_left_inj n1 n2 (k.take 12) (by omega)
    · simp [hk]; omega
    · exact htag
  exact hne this

/-! ## Stored blob and its JSON codec
(`frodo-storage/src/secure_file_store.rs`)

`StoredBlob` is serialized by `serde_json::to_vec` to the ASCII bytes
`\x7b"nonce":"<b64>","ciphertext":"<b64>"\x7d`; the parser below reads
exactly that canonical serialization (field order and spacing as
`serde_json` emits them) and requires the input to be fully consumed,
failing on anything else, as `serde_json::from_slice` fails on
malformed input. -/

/-- `StoredBlob { nonce, ciphertext }`, both base64 strings. -/
structure StoredBlob where
  nonce : List Char
  ciphertext : List Char
deriving DecidableEq, Repr

/-- The opening. -/
def jsonPre : List Char := ['\x7b', '"', 'n', 'o', 'n', 'c', 'e', '"', ':', '"']

/-- Between the two fields. -/
def jsonMid : List Char :=
  ['"', ',', '"', 'c', 'i', 'p', 'h', 'e', 'r', 't', 'e', 'x', 't', '"', ':', '"']

/-- The closing. -/
def jsonSuf : List Char := ['"', '\x7d']

/-- `serde_json::to_vec(&blob)`. -/
def serializeBlob (b : StoredBlob) : List Char :=
  jsonPre ++ b.nonce ++ jsonMid ++ b.ciphertext ++ jsonSuf

/-- Strip an expected literal from the front, or fail. -/
def dropExact : List Char → List Char → Option (List Char)
  | [], rest => some rest
  | _ :: _, [] => none
  | p :: ps, c :: cs => if p = c then dropExact ps cs else none

/-- `serde_json::from_slice::<StoredBlob>`. -/
def parseBlob (cs : List Char) : Except String StoredBlob :=
  match dropExact jsonPre cs with
  | none => .error "invalid blob json"
  | some r1 =>
    let nf := r1.takeWhile (fun c => c ≠ '"')
    let r2 := r1.dropWhile (fun c => c ≠ '"')
    match dropExact jsonMid r2 with
    | none => .error "invalid blob json"
    | some r3 =>
      let cf := r3.takeWhile (fun c => c ≠ '"')
      let r4 := r3.dropWhile (fun c => c ≠ '"')
      match dropExact jsonSuf r4 with
      | none => .error "invalid blob json"
      | some r5 => if r5 = [] then .ok ⟨nf, cf⟩ else .error "trailing characters"

theorem dropExact_append : ∀ (ps rest : List Char), dropExact ps (ps ++ rest) = some rest
  | [], _ => rfl
  | p :: ps, rest => by simp [dropExact, dropExact_append ps rest]

theorem takeWhile_append_quote :
    ∀ (xs : List Char), (∀ c ∈ xs, c ≠ '"') →
      ∀ ys : List Char, (xs ++ '"' :: ys).takeWhile (fun c => c ≠ '"') = xs
  | [], _, ys => by simp
  | x :: xs, h, ys => by
    have hx : x ≠ '"' := h x (by simp)
    have ih := takeWhile_append_quote xs (fun c hc => h c (by simp [hc])) ys
    simp only [decide_not] at ih ⊢
    simp [List.takeWhile_cons, hx, ih]

theorem dropWhile_append_quote :
    ∀ (xs : List Char), (∀ c ∈ xs, c ≠ '"') →
      ∀ ys : List Char, (xs ++ '"' :: ys).dropWhile (fun c => c ≠ '"') = '"' :: ys
  | [], _, ys => by simp
  | x :: xs, h, ys => by
    have hx : x ≠ '"' := h x (by simp)
    have ih := dropWhile_append_quote xs (fun c hc => h c (by simp [hc])) ys
    simp only [decide_not] at ih ⊢
    simp [List.dropWhile_cons, hx, ih]

/-- Parsing inverts serialization when neither field contains `"`. -/
theorem parseBlob_serializeBlob (b : StoredBlob)
    (h1 : ∀ c ∈ b.nonce, c ≠ '"') (h2 : ∀ c ∈ b.ciphertext, c ≠ '"') :
    parseBlob (serializeBlob b) = .ok b := by
  have hm2 : ∀ X : List Char, ('"' : Char) :: (jsonMid.tail ++ X) = jsonMid ++ X :=
    fun _ => rfl
  have hs2 : ∀ X : List Char, ('"' : Char) :: (jsonSuf.tail ++ X) = jsonSuf ++ X :=
    fun _ => rfl
  have hshape1 : serializeBlob b =
      jsonPre ++ (b.nonce ++ '"' ::
        (jsonMid.tail ++ (b.ciphertext ++ '"' :: (jsonSuf.tail ++ [])))) := by
    simp [serializeBlob, jsonPre, jsonMid, jsonSuf]
  rw [hshape1]
  simp only [parseBlob, dropExact_append]
  simp only [takeWhile_append_quote _ h1, dropWhile_append_quote _ h1]
  simp only [hm2, dropExact_append]
  simp only [takeWhile_append_quote _ h2, dropWhile_append_quote _ h2]
  simp only [hs2, dropExact_append]
  simp

/-! ## Encrypted file store (`frodo-storage/src/secure_file_store.rs`)

Logical keys are modelled by their UTF-8 bytes (Rust `&str`), paths and
file contents by `List Char`, the filesystem by an association list from
path to contents (an insert shadows the previous entry, modelling the
atomic-rename overwrite).  The `KeyProvider` is modelled by the result
its `get_or_create` returns during the call. -/

/-- The filesystem: path ↦ contents. -/
def FileSys := List (List Char × List Char)

/-- `File::open` + `read_to_end`. -/
def fsRead : FileSys → List Char → Option (List Char)
  | [], _ => none
  | (q, c) :: rest, p => if q = p then some c else fsRead rest p

/-- `write_blob`'s temp-file write + atomic `persist` (rename). -/
def fsWrite (fs : FileSys) (p content : List Char) : FileSys :=
  (p, content) :: fs

theorem fsRead_fsWrite (fs : FileSys) (p content : List Char) :
    fsRead (fsWrite fs p content) p = some content := by
  simp [fsRead, fsWrite]

/-- `sanitize_key`: URL-safe unpadded base64 of the logical key bytes. -/
def sanitize_key (key : List (Fin 256)) : List Char :=
  encB64 urlTbl key

/-- `EncryptedFileStore::path_for`: `root.join(sanitize_key(key))`. -/
def path_for (root : List Char) (key : List (Fin 256)) : List Char :=
  root ++ '/' :: sanitize_key key

/-- `build_cipher`: `Aes256Gcm::new_from_slice` fails unless the key
material is exactly 32 bytes. -/
def build_cipher (material : KeyMaterial) : Except SecureStoreError (List (Fin 256)) :=
  if material.bytes.length = 32 then .ok material.bytes
  else .error (.Storage "cipher init failed: InvalidLength")

/-- `EncryptedFileStore::put`.  `kmRes` is what `key_provider.get_or_create()`
returned during this call; `nonce` is the 12-byte draw
`Aes256Gcm::generate_nonce(&mut OsRng)` produced. -/
def store_put (kmRes : Except KeyError KeyMaterial) (root : List Char) (fs : FileSys)
    (key value nonce : List (Fin 256)) : Except SecureStoreError FileSys :=
  match kmRes with
  | .error e => .error (.Storage ("key provider: " ++ keyErrorToString e))
  | .ok km =>
    match build_cipher km with
    | .error e => .error e
    | .ok cipherKey =>
      let ciphertext := aeadEncrypt cipherKey nonce value
      let blob : StoredBlob := ⟨encB64 urlTbl nonce, encB64 urlTbl ciphertext⟩
      .ok (fsWrite fs (path_for root key) (serializeBlob blob))

/-- Outcome of `EncryptedFileStore::get`: a value, a typed error, or an
abort.  `crash` models a Rust panic — `Nonce::from_slice`
(`GenericArray::from_slice`) asserts that the slice length equals 12 and
panics otherwise. -/
inductive GetResult where
  | ok (value : List (Fin 256))
  | err (e : SecureStoreError)
  | crash (msg : String)
deriving DecidableEq, Repr

/-- `EncryptedFileStore::get` (with `read_blob` inlined: an absent file is
`NotFound` carrying `path.to_string_lossy()`). -/
def store_get (kmRes : Except KeyError KeyMaterial) (root : List Char) (fs : FileSys)
    (key : List (Fin 256)) : GetResult :=
  let path := path_for root key
  match fsRead fs path with
  | none => .err (.NotFound (String.mk path))
  | some content =>
    match parseBlob content with
    | .error e => .err (.Storage e)
    | .ok blob =>
      match kmRes with
      | .error e => .err (.Storage ("key provider: " ++ keyErrorToString e))
      | .ok km =>
        match build_cipher km with
        | .error e => .err e
        | .ok cipherKey =>
          match decB64 urlVal blob.nonce with
          | .error e => .err (.Storage ("nonce decode failed: " ++ e))
          | .ok nonce_bytes =>
            if nonce_bytes.length = 12 then
              match decB64 urlVal blob.ciphertext with
              | .error e => .err (.Storage ("ciphertext decode failed: " ++ e))
              | .ok ciphertext =>
                match aeadDecrypt cipherKey nonce_bytes ciphertext with
                | some plaintext => .ok plaintext
                | none => .err (.Storage "decrypt failed: aead::Error")
            else .crash "GenericArray::from_slice: slice length mismatch"

theorem urlTbl_ne_quote : ∀ s : Fin 64, urlTbl s ≠ '"' := by decide

theorem encB64_url_no_quote (bs : List (Fin 256)) : ∀ c ∈ encB64 urlTbl bs, c ≠ '"' := by
  intro c hc
  obtain ⟨s, rfl⟩ := mem_encB64 urlTbl bs c hc
  exact urlTbl_ne_quote s

/-! ## Task record repository (`frodo-task/src/lib.rs`,
`frodo-core/src/tasks.rs`)

`Uuid` is modelled as an opaque `Nat` identifier and `DateTime<Utc>` as a
`Nat` timestamp; `Uuid::new_v4()` and `chrono::Utc::now()` become explicit
arguments carrying the value the environment produced at that call.
The repository is generic over any `SecureStore`, modelled by a record of
`get`/`put` operations on an abstract store state; the task collection
(de)serialization (`serde_json` over `Vec<Task>`) is an explicit codec
parameter. -/

namespace FrodoTask

/-- `TaskStatus`. -/
inductive TaskStatus where
  | Todo
  | InProgress
  | Done
deriving DecidableEq, Repr

/-- `Task`. -/
structure Task where
  id : Nat
  title : String
  description : Option String
  tags : List String
  status : TaskStatus
  created_at : Nat
  updated_at : Nat
deriving DecidableEq, Repr

/-- `Task::new`: fresh id, `Todo`, both timestamps set to "now". -/
def Task.new (freshId now : Nat) (title : String) (description : Option String)
    (tags : List String) : Task :=
  { id := freshId, title := title, description := description, tags := tags,
    status := .Todo, created_at := now, updated_at := now }

/-- The fixed logical key the collection document lives under. -/
def TASKS_KEY : String := "tasks"

/-- The `SecureStore` contract as the repository consumes it. -/
structure StoreOps (σ : Type) where
  get : σ → String → Except SecureStoreError (List (Fin 256))
  put : σ → String → List (Fin 256) → Except SecureStoreError σ

/-- `SecureStoreTaskRepo::load`: `get(TASKS_KEY)`; `NotFound` means the
empty collection; any other store error propagates (via `anyhow`,
as its display string). -/
def repo_load {σ : Type} (ops : StoreOps σ)
    (dec : List (Fin 256) → Except String (List Task)) (st : σ) :
    Except String (List Task) :=
  match ops.get st TASKS_KEY with
  | .ok bytes => dec bytes
  | .error (.NotFound _) => .ok []
  | .error e => .error (secureStoreErrorToString e)

/-- `SecureStoreTaskRepo::save`: serialize and `put` the whole collection. -/
def repo_save {σ : Type} (ops : StoreOps σ) (enc : List Task → List (Fin 256))
    (st : σ) (tasks : List Task) : Except String σ :=
  match ops.put st TASKS_KEY (enc tasks) with
  | .ok st' => .ok st'
  | .error e => .error (secureStoreErrorToString e)

/-- `SecureStoreTaskRepo::list` = `load`. -/
def repo_list {σ : Type} (ops : StoreOps σ)
    (dec : List (Fin 256) → Except String (List Task)) (st : σ) :
    Except String (List Task) :=
  repo_load ops dec st

/-- The loop body of `set_status`: mutate the first task with the given
id (set the status, stamp `updated_at`), leave the rest untouched. -/
def setFirstStatus (id : Nat) (status : TaskStatus) (now : Nat) : List Task → List Task
  | [] => []
  | t :: rest =>
    if t.id = id then { t with status := status, updated_at := now } :: rest
    else t :: setFirstStatus id status now rest

/-- `SecureStoreTaskRepo::set_status`: load, locate by id (error "task not
found" when absent), mutate, save the whole collection, return the
updated record.  Returns the call result together with the store state
afterwards. -/
def set_status {σ : Type} (ops : StoreOps σ) (enc : List Task → List (Fin 256))
    (dec : List (Fin 256) → Except String (List Task)) (st : σ) (id : Nat)
    (status : TaskStatus) (now : Nat) : Except String Task × σ :=
  match repo_load ops dec st with
  | .error e => (.error e, st)
  | .ok tasks =>
    match tasks.find? (fun t => t.id = id) with
    | none => (.error "task not found", st)
    | some t0 =>
      match repo_save ops enc st (setFirstStatus id status now tasks) with
      | .error e => (.error e, st)
      | .ok st' => (.ok { t0 with status := status, updated_at := now }, st')

/-! ### `InMemorySecureStore` (`frodo-core/src/storage/secure_store.rs`),
used as the concrete store instance for witnesses.  The XOR masking is a
test placeholder in the source, not encryption. -/

/-- `MASK_BYTE = 0xA5`. -/
def MASK_BYTE : Fin 256 := fin256 165

/-- `mask` (and `unmask`, which is the same function). -/
def ims_mask (input : List (Fin 256)) : List (Fin 256) :=
  input.map fun b => bxor b MASK_BYTE

/-- The in-memory map. -/
def IMStore := List (String × List (Fin 256))

/-- `InMemorySecureStore::get`. -/
def ims_get (m : IMStore) (key : String) : Except SecureStoreError (List (Fin 256)) :=
  match List.lookup key m with
  | none => .error (.NotFound key)
  | some masked => .ok (ims_mask masked)

/-- `InMemorySecureStore::put` (insert shadows any previous entry). -/
def ims_put (m : IMStore) (key : String) (value : List (Fin 256)) : IMStore :=
  (key, ims_mask value) :: m

/-- The in-memory store packaged as `StoreOps`. -/
def imsOps : StoreOps IMStore :=
  { get := ims_get, put := fun m k v => .ok (ims_put m k v) }

end FrodoTask

/-- ASCII bytes back to the `&str` they spell (for stating which logical
key a byte list models). -/
def bytesToAscii (bs : List (Fin 256)) : List Char :=
  bs.map fun b => Char.ofNat b.val

/-! ## Shared concrete inputs for witnesses -/

/-- A 32-byte key material for concrete instantiations. -/
def kmW : KeyMaterial := { id := "default", bytes := (List.range 32).map fin256 }

/-- A 12-byte nonce draw. -/
def nonceW : List (Fin 256) := (List.range 12).map fin256

/-- A second, distinct 12-byte nonce draw. -/
def nonceW2 : List (Fin 256) := (List.range 12).map fun i => fin256 (i + 1)

/-- The logical key "hi" as UTF-8 bytes. -/
def keyW : List (Fin 256) := [fin256 104, fin256 105]

/-- A small plaintext value. -/
def vW : List (Fin 256) := [fin256 10, fin256 20, fin256 30]

/-! ## Claims -/

/-- C1: for every logical key `k` and byte buffer `v`, `put(k, v)` on an
`EncryptedFileStore` followed by `get(k)` returns exactly `v` (with the
key provider returning the same 32-byte material for both calls and the
CSPRNG producing a 12-byte nonce, as `Aes256Gcm::generate_nonce` does). -/
theorem put_then_get_roundtrip (km : KeyMaterial) (root : List Char) (fs : FileSys)
    (key value nonce : List (Fin 256)) (hk : km.bytes.length = 32)
    (hn : nonce.length = 12) :
    ∃ fs', store_put (.ok km) root fs key value nonce = .ok fs' ∧
      store_get (.ok km) root fs' key = .ok value := by
  have hcipher : build_cipher km = .ok km.bytes := by simp [build_cipher, hk]
  refine ⟨fsWrite fs (path_for root key)
      (serializeBlob ⟨encB64 urlTbl nonce, encB64 urlTbl (aeadEncrypt km.bytes nonce value)⟩),
      ?_, ?_⟩
  · simp [store_put, hcipher]
  · have hparse := parseBlob_serializeBlob
      ⟨encB64 urlTbl nonce, encB64 urlTbl (aeadEncrypt km.bytes nonce value)⟩
      (encB64_url_no_quote nonce) (encB64_url_no_quote _)
    have hb1 := decB64_encB64 urlTbl urlVal urlVal_urlTbl nonce
    have hb2 := decB64_encB64 urlTbl urlVal urlVal_urlTbl (aeadEncrypt km.bytes nonce value)
    have hdec := aeadDecrypt_aeadEncrypt km.bytes nonce value hn hk
    simp [store_get, fsRead_fsWrite, hparse, hcipher, hb1, hb2, hn, hdec]

/-- C1 witness: the round trip at concrete inputs. -/
theorem put_then_get_roundtrip_witness :
    ∃ fs', store_put (.ok kmW) ['r'] [] keyW vW nonceW = .ok fs' ∧
      store_get (.ok kmW) ['r'] fs' keyW = .ok vW :=
  put_then_get_roundtrip kmW ['r'] [] keyW vW nonceW (by decide) (by decide)

/-- A stored file that is well-formed JSON but whose nonce field decodes
to 3 bytes instead of 12: `\x7b"nonce":"AAAA","ciphertext":"AAAA"\x7d`. -/
def shortNonceFile : List Char := serializeBlob ⟨['A', 'A', 'A', 'A'], ['A', 'A', 'A', 'A']⟩

/-- C2: refuted as universally stated — `get` does not return a typed
`Storage` error for *every* stored file contents.  On a file whose nonce
field decodes to other than 12 bytes, `get` reaches
`Nonce::from_slice(&nonce_bytes)`, and `GenericArray::from_slice` panics
on a length mismatch instead of returning an error.  (The tamper cases
the spec lists — a flipped byte inside either base64 field, a truncated
file, a wrong key — do fail with `Storage`, because a single-character
flip of the 16-character nonce field still decodes to 12 bytes; but the
"never panics" part of the claim is violated by this reachable input.) -/
theorem get_short_nonce_panics :
    store_get (.ok kmW) ['r'] [(path_for ['r'] keyW, shortNonceFile)] keyW =
      .crash "GenericArray::from_slice: slice length mismatch" := by
  decide

/-- C3: the stored nonce is exactly the CSPRNG draw handed to `put`
(independent of plaintext and key), so two successive `put` calls with the
same logical key and plaintext but distinct CSPRNG draws store blobs with
different nonces and different ciphertexts. -/
theorem put_twice_distinct_nonces (km : KeyMaterial) (root : List Char) (fs : FileSys)
    (key value n1 n2 : List (Fin 256)) (hk : km.bytes.length = 32)
    (h1 : n1.length = 12) (h2 : n2.length = 12) (hne : n1 ≠ n2) :
    ∃ fs1 fs2 b1 b2,
      store_put (.ok km) root fs key value n1 = .ok fs1 ∧
      store_put (.ok km) root fs1 key value n2 = .ok fs2 ∧
      fsRead fs1 (path_for root key) = some (serializeBlob b1) ∧
      fsRead fs2 (path_for root key) = some (serializeBlob b2) ∧
      b1.nonce = encB64 urlTbl n1 ∧ b2.nonce = encB64 urlTbl n2 ∧
      b1.nonce ≠ b2.nonce ∧ b1.ciphertext ≠ b2.ciphertext := by
  have hcipher : build_cipher km = .ok km.bytes := by simp [build_cipher, hk]
  have hput1 : store_put (.ok km) root fs key value n1 = .ok (fsWrite fs (path_for root key)
      (serializeBlob ⟨encB64 urlTbl n1, encB64 urlTbl (aeadEncrypt km.bytes n1 value)⟩)) := by
    simp [store_put, hcipher]
  have hput2 : store_put (.ok km) root
      (fsWrite fs (path_for root key)
        (serializeBlob ⟨encB64 urlTbl n1, encB64 urlTbl (aeadEncrypt km.bytes n1 value)⟩))
      key value n2 = .ok (fsWrite
        (fsWrite fs (path_for root key)
          (serializeBlob ⟨encB64 urlTbl n1, encB64 urlTbl (aeadEncrypt km.bytes n1 value)⟩))
        (path_for root key)
        (serializeBlob ⟨encB64 urlTbl n2, encB64 urlTbl (aeadEncrypt km.bytes n2 value)⟩)) := by
    simp [store_put, hcipher]
  refine ⟨_, _, ⟨encB64 urlTbl n1, encB64 urlTbl (aeadEncrypt km.bytes n1 value)⟩,
    ⟨encB64 urlTbl n2, encB64 urlTbl (aeadEncrypt km.bytes n2 value)⟩,
    hput1, hput2, fsRead_fsWrite _ _ _, fsRead_fsWrite _ _ _, rfl, rfl, ?_, ?_⟩
  · intro h
    exact hne (encB64_inj urlTbl urlVal urlVal_urlTbl h)
  · intro h
    exact aeadEncrypt_nonce_inj km.bytes n1 n2 value h1 h2 hk hne
      (encB64_inj urlTbl urlVal urlVal_urlTbl h)

/-- C3 witness: two successive puts at concrete distinct nonce draws. -/
theorem put_twice_distinct_nonces_witness :
    ∃ fs1 fs2 b1 b2,
      store_put (.ok kmW) ['r'] [] keyW vW nonceW = .ok fs1 ∧
      store_put (.ok kmW) ['r'] fs1 keyW vW nonceW2 = .ok fs2 ∧
      fsRead fs1 (path_for ['r'] keyW) = some (serializeBlob b1) ∧
      fsRead fs2 (path_for ['r'] keyW) = some (serializeBlob b2) ∧
      b1.nonce = encB64 urlTbl nonceW ∧ b2.nonce = encB64 urlTbl nonceW2 ∧
      b1.nonce ≠ b2.nonce ∧ b1.ciphertext ≠ b2.ciphertext :=
  put_twice_distinct_nonces kmW ['r'] [] keyW vW nonceW nonceW2
    (by decide) (by decide) (by decide) (by decide)

/-- C5 counterexample: `get` on the never-written logical key "hi" under
root "r" fails with `NotFound`, but its `key` field is the file path
"r/aGk" (`path.to_string_lossy()` in `read_blob`), not the logical key
"hi" the claim requires. -/
theorem get_absent_key_field_is_path :
    store_get (.ok kmW) ['r'] [] keyW = .err (.NotFound "r/aGk") ∧
      ("r/aGk" : String) ≠ "hi" ∧ String.mk (bytesToAscii keyW) = "hi" := by
  refine ⟨by decide, by decide, by decide⟩

/-- C5 (amended): `get` on a logical key with no file fails with
`NotFound` whose `key` field is the joined file path — the root, a path
separator, and the URL-safe base64 encoding of the logical key. -/
theorem get_absent_notfound_path (kmRes : Except KeyError KeyMaterial) (root : List Char)
    (fs : FileSys) (key : List (Fin 256))
    (habs : fsRead fs (path_for root key) = none) :
    store_get kmRes root fs key =
      .err (.NotFound (String.mk (root ++ '/' :: encB64 urlTbl key))) := by
  have h : store_get kmRes root fs key =
      .err (.NotFound (String.mk (path_for root key))) := by
    simp [store_get, habs]
  exact h

/-- C5 amended-claim witness at concrete inputs. -/
theorem get_absent_notfound_path_witness :
    store_get (.ok kmW) ['r'] [] keyW =
      .err (.NotFound (String.mk (['r'] ++ '/' :: encB64 urlTbl keyW))) :=
  get_absent_notfound_path (.ok kmW) ['r'] [] keyW (by decide)

/-- The 32 CSPRNG bytes drawn by the first caller in the scenarios below. -/
def freshW : List (Fin 256) := (List.range 32).map fin256

/-- The 32 CSPRNG bytes drawn by the second caller. -/
def freshW2 : List (Fin 256) := (List.range 32).map fun i => fin256 (i + 1)

/-- C4: refuted — `KeyringProvider::get_or_create` matches the read with
`if let Ok(secret)`, so *any* failed `get_password` (not only absence)
falls through to generating a fresh key and writing it to the backend.
Here the read fails with a platform failure ("cannot reach OS secret
store"), the write succeeds, and the call returns the freshly generated
key after storing it — instead of failing with the backend error and
leaving the backend untouched. -/
theorem keyring_regenerates_on_failed_read :
    keyring_get_or_create
        { entryNew := .ok (), getPassword := .error "platform failure: backend unreachable",
          setPassword := .ok () } freshW =
      (.ok { id := "default", bytes := freshW }, some (encode_key { id := "default", bytes := freshW })) := by
  rfl

/-- C7: refuted — `KeyringProvider::get_or_create` performs a non-atomic
read-then-write against the keyring; interleaving two first-time calls as
read₁, read₂, write₁, write₂ on an empty backend makes both calls
generate and write a key: both report success with *different* key
bytes, and the first caller's key is lost (the backend ends holding the
second).  (The in-memory provider holds its mutex across generation and
does not race; the keyring provider, cited by the same claim, does.) -/
theorem keyring_race_both_generate :
    keyring_first_use_race freshW freshW2 =
      (.ok { id := "default", bytes := freshW }, .ok { id := "default", bytes := freshW2 },
        some (encode_key { id := "default", bytes := freshW2 }), true, true) ∧
      freshW ≠ freshW2 := by
  refine ⟨by rfl, by decide⟩

/-- C9: `decode_key` succeeds exactly on secrets whose standard base64
decoding has exactly 32 bytes, returning those bytes under id "default";
a secret that is not valid base64 propagates the decode failure as
`KeyError::Decode`, and one decoding to a different length also fails
with `KeyError::Decode`. -/
theorem decode_key_spec (s : String) :
    (∀ m, decode_key s = .ok m ↔
      decStdPad s.data = .ok m.bytes ∧ m.bytes.length = 32 ∧ m.id = "default") ∧
    (∀ e, decStdPad s.data = .error e → decode_key s = .error (.Decode e)) ∧
    (∀ bs, decStdPad s.data = .ok bs → bs.length ≠ 32 →
      decode_key s = .error (.Decode ("expected 32 bytes, got " ++ toString bs.length))) := by
  refine ⟨?_, ?_, ?_⟩
  · intro m
    constructor
    · intro h
      rw [decode_key] at h
      cases hd : decStdPad s.data with
      | error e => rw [hd] at h; exact absurd h (by simp)
      | ok bs =>
        rw [hd] at h
        by_cases hl : bs.length = 32
        · simp only [hl, if_true] at h
          have hm : m = { id := "default", bytes := bs } := by
            cases h
            rfl
          simp [hm, hd, hl]
        · simp [hl] at h
    · rintro ⟨hd, hl, hid⟩
      rw [decode_key, hd]
      simp only [hl, if_true]
      cases m
      simp_all
  · intro e hd
    rw [decode_key, hd]
  · intro bs hd hl
    rw [decode_key, hd]
    simp [hl]

/-- C9 witness: "abcd" is valid base64 but decodes to 3 bytes, so
`decode_key` fails with the `Decode` (corrupt-secret) error; and the
base64 encoding of a 32-byte key decodes back to it. -/
theorem decode_key_spec_witness :
    decode_key "abcd" = .error (.Decode ("expected 32 bytes, got " ++ toString (3 : Nat))) ∧
      decode_key (encode_key { id := "default", bytes := freshW }) =
        .ok { id := "default", bytes := freshW } :=
  ⟨by
    have h := (decode_key_spec "abcd").2.2 [fin256 105, fin256 183, fin256 29] (by rfl) (by decide)
    exact h,
   by
    have h := ((decode_key_spec (encode_key { id := "default", bytes := freshW })).1
      { id := "default", bytes := freshW }).mpr ⟨by rfl, by decide, rfl⟩
    exact h⟩

namespace FrodoTask

/-- C8: `list()` maps a `NotFound` from the underlying store for the fixed
document key to the empty collection (first-use semantics, not an error),
and `NotFound` is the only store error mapped to success. -/
theorem list_notfound_empty {σ : Type} (ops : StoreOps σ)
    (dec : List (Fin 256) → Except String (List Task)) (st : σ) :
    (∀ k, ops.get st TASKS_KEY = .error (.NotFound k) → repo_list ops dec st = .ok []) ∧
    (∀ e, ops.get st TASKS_KEY = .error e →
      ((∃ ts, repo_list ops dec st = .ok ts) ↔ ∃ k, e = SecureStoreError.NotFound k)) := by
  constructor
  · intro k h
    simp [repo_list, repo_load, h]
  · intro e h
    cases e with
    | NotFound k => simp [repo_list, repo_load, h]
    | Storage r => simp [repo_list, repo_load, h]

/-- A concrete trivial decoder for witness instantiations. -/
def decEmptyW : List (Fin 256) → Except String (List Task) := fun _ => .ok []

/-- C8 witness: on an empty in-memory store (document absent), `list()`
returns the empty collection. -/
theorem list_notfound_empty_witness :
    repo_list imsOps decEmptyW ([] : IMStore) = .ok [] :=
  (list_notfound_empty imsOps decEmptyW []).1 "tasks" rfl

/-- C6: with the stored collection decoding to `ts`: if no record has the
given id, `set_status` fails with "task not found"; if a record has it,
`set_status` returns that record with the new status and `updated_at`
stamped to "now" (creation timestamp untouched, so strictly greater
whenever the clock advanced since creation), and the store moves to the
state produced by `put`ting the whole rewritten collection back. -/
theorem set_status_spec {σ : Type} (ops : StoreOps σ) (enc : List Task → List (Fin 256))
    (dec : List (Fin 256) → Except String (List Task)) (st : σ) (bs : List (Fin 256))
    (ts : List Task) (id : Nat) (status : TaskStatus) (now : Nat)
    (hget : ops.get st TASKS_KEY = .ok bs) (hdec : dec bs = .ok ts) :
    (ts.find? (fun t => t.id = id) = none →
      set_status ops enc dec st id status now = (.error "task not found", st)) ∧
    (∀ t0, ts.find? (fun t => t.id = id) = some t0 →
      ∀ st', ops.put st TASKS_KEY (enc (setFirstStatus id status now ts)) = .ok st' →
        ∃ u, set_status ops enc dec st id status now = (.ok u, st') ∧
          u.status = status ∧ u.updated_at = now ∧ u.created_at = t0.created_at ∧
          u.id = t0.id ∧ u.title = t0.title ∧
          (t0.created_at < now → u.created_at < u.updated_at)) := by
  have hload : repo_load ops dec st = .ok ts := by simp [repo_load, hget, hdec]
  constructor
  · intro hnone
    simp [set_status, hload, hnone]
  · intro t0 hfind st' hput
    refine ⟨{ t0 with status := status, updated_at := now }, ?_, rfl, rfl, rfl, rfl, rfl, ?_⟩
    · simp [set_status, hload, hfind, repo_save, hput]
    · intro h
      exact h

/-- A task created at time 5 (id 1). -/
def t0W : Task :=
  { id := 1, title := "Ship", description := none, tags := [], status := .Todo,
    created_at := 5, updated_at := 5 }

/-- A concrete decoder yielding the one-task collection. -/
def decOneW : List (Fin 256) → Except String (List Task) := fun _ => .ok [t0W]

/-- A concrete encoder. -/
def encW : List Task → List (Fin 256) := fun _ => []

/-- A store holding the document. -/
def stW : IMStore := [(TASKS_KEY, [])]

/-- C6 witness: updating task 1 to Done at time 7 returns the updated
record (status Done, updated 7 > created 5) and writes the collection
back. -/
theorem set_status_spec_witness :
    ∃ u, set_status imsOps encW decOneW stW 1 .Done 7 = (.ok u, (TASKS_KEY, []) :: stW) ∧
      u.status = .Done ∧ u.updated_at = 7 ∧ u.created_at = t0W.created_at ∧
      u.id = t0W.id ∧ u.title = t0W.title ∧
      (t0W.created_at < 7 → u.created_at < u.updated_at) :=
  (set_status_spec imsOps encW decOneW stW [] [t0W] 1 .Done 7 rfl rfl).2 t0W (by decide)
    ((TASKS_KEY, []) :: stW) rfl

/-- C10: when no record matches the id, `set_status` returns the "task
not found" error and the underlying store state is exactly the state it
was called with — the error path performs no write. -/
theorem set_status_absent_state_unchanged {σ : Type} (ops : StoreOps σ)
    (enc : List Task → List (Fin 256)) (dec : List (Fin 256) → Except String (List Task))
    (st : σ) (bs : List (Fin 256)) (ts : List Task) (id : Nat) (status : TaskStatus)
    (now : Nat) (hget : ops.get st TASKS_KEY = .ok bs) (hdec : dec bs = .ok ts)
    (habs : ∀ t ∈ ts, t.id ≠ id) :
    set_status ops enc dec st id status now = (.error "task not found", st) := by
  have hload : repo_load ops dec st = .ok ts := by simp [repo_load, hget, hdec]
  have hfind : ts.find? (fun t => t.id = id) = none := by
    rw [List.find?_eq_none]
    intro t ht
    simpa using habs t ht
  simp [set_status, hload, hfind]

/-- C10 witness: id 2 matches nothing in the one-task store; the call
errors and the store is unchanged. -/
theorem set_status_absent_state_unchanged_witness :
    set_status imsOps encW decOneW stW 2 .Done 7 = (.error "task not found", stW) :=
  set_status_absent_state_unchanged imsOps encW decOneW stW [] [t0W] 2 .Done 7 rfl rfl
    (by decide)

end FrodoTask
